import Mathlib

/-!
Verification of `webserver/server.c`: the per-connection protocol engine.

A shallow embedding of `recv_all`, `send_all`, `get_requested_filename`,
`read_file` and the response composition of `main`.

Conventions of the embedding:

* a `char` is a `Nat` (its code), a C array is a `List Nat` whose length is the
  array's capacity, and a pointer into an array is the list of the bytes from
  the pointed-to element to the end of the array;
* an access outside an array is undefined behaviour in C; the embedding makes
  it an explicit fault (`none`, or a `fault` constructor);
* the socket and the file system are the environment: `recv` is given by the
  list of its successive results, `send` by an oracle, files by a map from
  paths to contents.
-/

namespace Webserver

/-! ## Constants (server.c, lines 16-23) -/

def MAX_CONTENT_LENGTH : Nat := 8192
def MAXBUFSIZE : Nat := MAX_CONTENT_LENGTH <<< 1
def MAXDATASIZE : Nat := 256
def MAXFILENAME : Nat := 64
def MAXPATHLEN : Nat := 128

/-- Largest value of a C `int` (32 bits). -/
def INT_MAX : Nat := 2147483647

/-! ## Bytes, arrays and C strings -/

/-- The bytes of a string literal (without the terminating NUL). -/
def bytes (s : String) : List Nat := s.toList.map Char.toNat

/-- The header terminator CR LF CR LF. -/
def CRLFCRLF : List Nat := [13, 10, 13, 10]

/-- Store `data` into the array `buf` from index `off` on; `none` when the
store would leave the array. -/
def writeAt (buf : List Nat) (off : Nat) (data : List Nat) : Option (List Nat) :=
  if off + data.length ≤ buf.length then
    some (buf.take off ++ data ++ buf.drop (off + data.length))
  else none

/-- C `strlen` on the bytes from a pointer to the end of its array: the number
of bytes before the first NUL; `none` when the array holds no NUL (the scan
leaves the array). -/
def strlen : List Nat → Option Nat
  | [] => none
  | c :: s => if c = 0 then some 0 else (strlen s).map (· + 1)

/-- C `strcmp` on two pointers (each the bytes up to the end of its array):
the difference of the first differing bytes, 0 when both strings end together;
`none` when the comparison leaves one of the arrays. -/
def strcmp : List Nat → List Nat → Option Int
  | [], _ => none
  | _ :: _, [] => none
  | a :: s1, b :: s2 =>
    if a ≠ b then some ((a : Int) - (b : Int))
    else if a = 0 then some 0
    else strcmp s1 s2

/-- Result of C `strchr`. -/
inductive StrchrResult
  | fault
  | null
  | found (rest : List Nat)
  deriving DecidableEq, Repr

/-- C `strchr(s, c)`: a pointer to the first `c` of the string (given as the
bytes from that `c` on), `null` when the terminating NUL comes first, `fault`
when the scan leaves the array. -/
def strchr : List Nat → Nat → StrchrResult
  | [], _ => .fault
  | x :: s, c =>
    if x = c then .found (x :: s)
    else if x = 0 then .null
    else strchr s c

/-- Decimal digits of `n` in front of `acc`, most significant first; `fuel`
bounds the number of digits. -/
def fmt_lu_digits : Nat → Nat → List Nat → List Nat
  | 0, _, acc => acc
  | fuel + 1, n, acc =>
    if n / 10 = 0 then (48 + n % 10) :: acc
    else fmt_lu_digits fuel (n / 10) ((48 + n % 10) :: acc)

/-- A `%lu` conversion of `sprintf`: the decimal digits of `n`. -/
def fmt_lu (n : Nat) : List Nat := fmt_lu_digits (n + 1) n []

/-- The C string an array holds at its start: the bytes before the first NUL. -/
def c_str (a : List Nat) : Option (List Nat) :=
  (strlen a).map fun n => a.take n

/-- C `sprintf(dst, ...)` once the conversions are expanded to `text`: stores
`text` and a terminating NUL at the start of `dst`. -/
def sprintf (dst : List Nat) (text : List Nat) : Option (List Nat) :=
  writeAt dst 0 (text ++ [0])

/-! ## recv_all (server.c, lines 93-120) -/

/-- What one `recv` call did: it failed with -1, or it stored `data` at the
address it was given and returned `data.length`. -/
inductive RecvResult
  | error
  | data (d : List Nat)
  deriving DecidableEq, Repr

/-- The variables of `recv_all` at the head of its `for (;;)` loop. -/
structure RecvState where
  len : Int
  remaining : Int
  buf : List Nat
  deriving DecidableEq, Repr

/-- How a run of `recv_all` stands. -/
inductive RecvOutcome
  | returned (ret : Int) (buf : List Nat)
  | fault
  | looping (st : RecvState)
  deriving DecidableEq, Repr

/-- The third argument of the `recv` call (lines 99-102). -/
def recv_count (remaining : Int) : Int :=
  if remaining ≥ (MAXDATASIZE : Int) - 1 then (MAXDATASIZE : Int) - 1 else remaining

/-- Lines 99-108 when `recv` succeeds with `d`: the bytes land at `buf + len`,
`len` and `remaining` are updated, and `buf[len] = 0` is stored. `none` when a
store leaves `buf`. -/
def recv_store (st : RecvState) (d : List Nat) : Option RecvState :=
  match writeAt st.buf st.len.toNat d with
  | none => none
  | some b1 =>
    let len := st.len + (d.length : Int)
    let remaining := st.remaining - (d.length : Int)
    match writeAt b1 len.toNat [0] with
    | none => none
    | some b2 => some { len := len, remaining := remaining, buf := b2 }

/-- Lines 110-117: the two exits of the loop after the stores. The `strcmp`
starts at `&buf[len - 4]`, which lies before the array when `len < 4`. -/
def recv_check (st : RecvState) : RecvOutcome :=
  if st.len = 0 then .returned 0 st.buf
  else if st.len - 4 < 0 then .fault
  else
    match strcmp (st.buf.drop (st.len - 4).toNat) (CRLFCRLF ++ [0]) with
    | none => .fault
    | some c => if c = 0 then .returned st.len st.buf else .looping st

/-- One iteration of the loop of `recv_all`, given what `recv` did. -/
def recv_iter (st : RecvState) (r : RecvResult) : RecvOutcome :=
  match r with
  | .error => .returned (-1) st.buf
  | .data d =>
    match recv_store st d with
    | none => .fault
    | some st1 => recv_check st1

/-- The loop of `recv_all` from state `st`, fed the results of the successive
`recv` calls. When the results run out before an exit is taken the run is
`looping`: the next thing it does is call `recv` again. -/
def recv_all_from (st : RecvState) : List RecvResult → RecvOutcome
  | [] => .looping st
  | r :: rs =>
    match recv_iter st r with
    | .looping st1 => recv_all_from st1 rs
    | o => o

/-- The function `recv_all(sock_fd, buf)`: `len = 0`, `remaining = MAXBUFSIZE - 1`. -/
def recv_all (script : List RecvResult) (buf : List Nat) : RecvOutcome :=
  recv_all_from { len := 0, remaining := (MAXBUFSIZE : Int) - 1, buf := buf } script

/-- States the loop of `recv_all` on `buf0` can be in after any number of
iterations (lines 99-108 executed, whichever exit is or is not taken after
them) when every `recv` returns at most the count it was asked for. -/
inductive Reach (buf0 : List Nat) : RecvState → Prop
  | init : Reach buf0 { len := 0, remaining := (MAXBUFSIZE : Int) - 1, buf := buf0 }
  | step (st st1 : RecvState) (d : List Nat) :
      Reach buf0 st → (d.length : Int) ≤ recv_count st.remaining →
      recv_store st d = some st1 → Reach buf0 st1

/-! ## send_all (server.c, lines 122-136) -/

/-- The environment of `send_all`: what the `i`-th `send` call returns when it
is offered `count` bytes starting at `msg + offset`. -/
abbrev SendOracle := Nat → Int → Nat → Int

/-- Conversion of a wider integer to a 32-bit `int`. -/
def toInt32 (x : Int) : Int := (x + 2147483648) % 4294967296 - 2147483648

/-- Conversion of an `int` to `size_t` (64 bits). -/
def toSizeT (x : Int) : Nat := (x % 18446744073709551616).toNat

/-- One `send` call issued by `send_all`: the offset added to `msg`, the
count offered, and the value stored in `byte_count`. -/
structure SendCall where
  offset : Int
  count : Nat
  result : Int
  deriving DecidableEq, Repr

/-- The value `send_all` returns (`none`: the fuel ran out inside the loop)
and the `send` calls it issued, in order. -/
structure SendOutcome where
  ret : Option Int
  calls : List SendCall
  deriving DecidableEq, Repr

/-- The `while (total < len)` loop of `send_all`; `i` counts the `send` calls
issued so far. The comparison converts `total` to `size_t`, `len - total` is
`size_t` arithmetic, and `total += byte_count` is 32-bit. -/
def send_all_loop (send : SendOracle) (len : Nat) : Nat → Nat → Int → SendOutcome
  | 0, _, total =>
    if toSizeT total < len then { ret := none, calls := [] }
    else { ret := some total, calls := [] }
  | fuel + 1, i, total =>
    if toSizeT total < len then
      let count := (len + 18446744073709551616 - toSizeT total) % 18446744073709551616
      let byte_count := toInt32 (send i total count)
      let call : SendCall := { offset := total, count := count, result := byte_count }
      if byte_count = -1 then { ret := some (-1), calls := [call] }
      else
        let out := send_all_loop send len fuel (i + 1) (toInt32 (total + byte_count))
        { ret := out.ret, calls := call :: out.calls }
    else { ret := some total, calls := [] }

/-- The function `send_all(sock_fd, msg, len, flags)`: `total = 0`. -/
def send_all (fuel : Nat) (send : SendOracle) (len : Nat) : SendOutcome :=
  send_all_loop send len fuel 0 0

/-- The calls of a trace each offer exactly the unsent suffix: the offset is
the total accepted so far (starting from `total`) and the count is what is
left of `len`. -/
def OffersUnsentSuffix (len : Nat) : Int → List SendCall → Prop
  | _, [] => True
  | total, c :: cs =>
    c.offset = total ∧ (c.count : Int) = (len : Int) - total ∧
      OffersUnsentSuffix len (total + c.result) cs

/-- A full account of a run of `send_all` against the oracle `send`, from the
`i`-th call on with `total` bytes accepted so far. With no call left the whole
message has been accepted (`total = len`) and the result is `len`. Otherwise
bytes are still unsent, the next call is offered exactly the unsent suffix, its
recorded result is what `send` returned for it, and either that result is -1,
no further call is issued and the result is -1, or the run goes on with the
accepted bytes added to `total`. -/
def ReliableWrite (send : SendOracle) (len : Nat) :
    Nat → Int → List SendCall → Option Int → Prop
  | _, total, [], ret => total = (len : Int) ∧ ret = some (len : Int)
  | i, total, c :: cs, ret =>
    total < (len : Int) ∧ c.offset = total ∧ (c.count : Int) = (len : Int) - total ∧
    c.result = send i c.offset c.count ∧
    ((c.result = -1 ∧ cs = [] ∧ ret = some (-1)) ∨
     (c.result ≠ -1 ∧ 1 ≤ c.result ∧ c.result ≤ (c.count : Int) ∧
      ReliableWrite send len (i + 1) (total + c.result) cs ret))

/-! ## get_requested_filename (server.c, lines 155-171) -/

/-- How a call of `get_requested_filename` ends: `invalid` is the early return
after "invalid request" (the array `filename` is handed back as it was),
`stored` the normal return with the new contents of `filename`, `fault` an
access outside `request` or `filename`. -/
inductive ParseOutcome
  | invalid (filename : List Nat)
  | stored (filename : List Nat)
  | fault
  deriving DecidableEq, Repr

/-- The copy loop (lines 166-169): `for (p = begin; *p != ' '; p++)
filename[len++] = *p;`. Gives `filename` and `len` at loop exit; `none` when
`*p` is read past the end of the request array or a byte is stored past the
end of `filename`. -/
def copy_target : List Nat → List Nat → Nat → Option (List Nat × Nat)
  | [], _, _ => none
  | c :: p, filename, len =>
    if c ≠ 32 then
      match writeAt filename len [c] with
      | none => none
      | some f => copy_target p f (len + 1)
    else some (filename, len)

/-- The function `get_requested_filename(request, filename)`. -/
def get_requested_filename (request filename : List Nat) : ParseOutcome :=
  match strchr request 47 with
  | .fault => .fault
  | .null => .invalid filename
  | .found begin =>
    match copy_target (begin.drop 1) filename 0 with
    | none => .fault
    | some (f, len) =>
      match writeAt f len [0] with
      | none => .fault
      | some f1 => .stored f1

/-! ## read_file and the response composition of main (lines 71-87, 282-310) -/

/-- The file system as `read_file` sees it: for a path, the bytes of the
regular file `open_regular_file` opens there, or `none` when it fails. -/
abbrev FileSystem := List Nat → Option (List Nat)

/-- The function `read_file(filename, buf, count)`: the return value and the
array `buf` afterwards. `read` stores at most `count` bytes of the file at the
start of `buf` and nothing after them. -/
def read_file (fs : FileSystem) (filename buf : List Nat) (count : Nat) :
    Option (Int × List Nat) :=
  match fs filename with
  | none => some (-1, buf)
  | some content =>
    match writeAt buf 0 (content.take count) with
    | none => none
    | some b => some (((content.take count).length : Int), b)

/-- The literal `msg_404` (line 289). -/
def msg_404 : List Nat := bytes "Not Found"

/-- The text the `sprintf` of the 404 branch produces (lines 290-296). -/
def text_404 : Option (List Nat) :=
  (strlen (msg_404 ++ [0])).map fun n =>
    bytes "HTTP/1.1 404 Not Found\r\n" ++
    bytes "Content-Length: " ++ fmt_lu (n + 2) ++ bytes "\r\n" ++
    bytes "Content-Type: text/plain; charset=utf-8\r\n" ++
    bytes "\r\n" ++
    msg_404.take n ++ bytes "\r\n"

/-- The text the `sprintf` of the 200 branch produces (lines 298-306): `%lu`
is `strlen(body) + 2` and `%s` the C string held in `body`. -/
def text_200 (body : List Nat) : Option (List Nat) :=
  (strlen body).map fun n =>
    bytes "HTTP/1.1 200 Ok\r\n" ++
    bytes "Connection: Keep-Alive\r\n" ++
    bytes "Content-Length: " ++ fmt_lu (n + 2) ++ bytes "\r\n" ++
    bytes "Content-Type: text/html; charset=utf-8\r\n" ++
    bytes "Keep-Alive: timeout=5, max=1000\r\n" ++
    bytes "\r\n" ++
    body.take n ++ bytes "\r\n"

/-- Lines 287-307 of `main`: `read_file(filepath, body, sizeof(body))`, then
the 404 or the 200 message is composed into `msg`. `body` and `msg` are the
arrays as they were before; the result is `msg` afterwards. -/
def respond (fs : FileSystem) (filepath body msg : List Nat) : Option (List Nat) :=
  match read_file fs filepath body body.length with
  | none => none
  | some (rc, body1) =>
    if rc = -1 then
      match text_404 with
      | none => none
      | some text => sprintf msg text
    else
      match text_200 body1 with
      | none => none
      | some text => sprintf msg text

/-- The bytes `main` hands to `send_all` (lines 309-310): `msg` with length
`strlen(msg)`. -/
def wire_message (msg : List Nat) : Option (List Nat) :=
  (strlen msg).map fun n => msg.take n

/-- The message `main` composes and sends for `filepath`. -/
def response (fs : FileSystem) (filepath body msg : List Nat) : Option (List Nat) :=
  (respond fs filepath body msg).bind wire_message

/-! ## Reference values used in the statements -/

/-- The 200 message described for a file with bytes `content`: status line
`HTTP/1.1 200 Ok`, `Content-Length` the size plus 2, and after the blank line
the bytes followed by CR LF. -/
def framed_200 (content : List Nat) : List Nat :=
  bytes "HTTP/1.1 200 Ok\r\nConnection: Keep-Alive\r\nContent-Length: " ++
    fmt_lu (content.length + 2) ++
    bytes "\r\nContent-Type: text/html; charset=utf-8\r\nKeep-Alive: timeout=5, max=1000\r\n\r\n" ++
    content ++ bytes "\r\n"

/-- The literal 404 message. -/
def literal_404 : List Nat :=
  bytes "HTTP/1.1 404 Not Found\r\nContent-Length: 11\r\nContent-Type: text/plain; charset=utf-8\r\n\r\nNot Found\r\n"

/-- A file system holding exactly the listed regular files. -/
def fs_of (files : List (List Nat × List Nat)) : FileSystem :=
  fun path => (files.find? fun f => f.1 = path).map fun f => f.2

/-- A client that sends 16383 bytes `a` and no terminator: 64 reads of 255
bytes, one of 63 bytes (all that is asked for by then), and then `k` reads of
0 bytes (`recv` is asked for 0 bytes once the buffer is full). -/
def oversized_stream (k : Nat) : List (List Nat) :=
  List.replicate 64 (List.replicate 255 97) ++ [List.replicate 63 97] ++ List.replicate k []

/-! ## Lemmas -/

theorem writeAt_zero (buf data : List Nat) (h : data.length ≤ buf.length) :
    writeAt buf 0 data = some (data ++ buf.drop data.length) := by
  simp [writeAt, h]

theorem writeAt_append (a b d : List Nat) (h : d.length ≤ b.length) :
    writeAt (a ++ b) a.length d = some (a ++ d ++ b.drop d.length) := by
  have h1 : a.length + d.length ≤ (a ++ b).length := by simp; omega
  simp only [writeAt, h1, if_true, Option.some.injEq]
  rw [List.take_left' rfl, List.drop_append]

theorem strchr_found (pre rest : List Nat) (c : Nat) (hc : c ∉ pre) (h0 : 0 ∉ pre) :
    strchr (pre ++ c :: rest) c = .found (c :: rest) := by
  induction pre with
  | nil => simp [strchr]
  | cons x pre ih =>
    have hx : x ≠ c := fun e => hc (by simp [e])
    have hx0 : x ≠ 0 := fun e => h0 (by simp [e])
    have hc1 : c ∉ pre := fun e => hc (by simp [e])
    have h01 : 0 ∉ pre := fun e => h0 (by simp [e])
    simp [strchr, hx, hx0, ih hc1 h01]

theorem strchr_null (req rest : List Nat) (c : Nat) (hc0 : c ≠ 0) (hc : c ∉ req) (h0 : 0 ∉ req) :
    strchr (req ++ 0 :: rest) c = .null := by
  induction req with
  | nil => simp [strchr, hc0.symm]
  | cons x req ih =>
    have hx : x ≠ c := fun e => hc (by simp [e])
    have hx0 : x ≠ 0 := fun e => h0 (by simp [e])
    have hc1 : c ∉ req := fun e => hc (by simp [e])
    have h01 : 0 ∉ req := fun e => h0 (by simp [e])
    simp [strchr, hx, hx0, ih hc1 h01]

theorem copy_target_spec : ∀ (name rest a b : List Nat), 32 ∉ name → name.length ≤ b.length →
    copy_target (name ++ 32 :: rest) (a ++ b) a.length =
      some (a ++ name ++ b.drop name.length, a.length + name.length) := by
  intro name
  induction name with
  | nil => intro rest a b _ _; simp [copy_target]
  | cons c name ih =>
    intro rest a b hsp hlen
    have hc : c ≠ 32 := fun e => hsp (by simp [e])
    have hname : 32 ∉ name := fun e => hsp (by simp [e])
    cases b with
    | nil => simp at hlen
    | cons x b =>
      have hlen1 : name.length ≤ b.length := by simpa using hlen
      have hw : writeAt (a ++ x :: b) a.length [c] = some ((a ++ [c]) ++ b) := by
        rw [writeAt_append a (x :: b) [c] (by simp)]
        simp
      have := ih rest (a ++ [c]) b hname hlen1
      simp only [List.length_append, List.length_singleton] at this
      simp only [List.cons_append, copy_target, ne_eq, hc, not_false_eq_true, if_true, hw,
        List.append_eq, this]
      simp [Nat.add_assoc, Nat.add_comm 1]

theorem fmt_lu_digits_ne_zero : ∀ (fuel n : Nat) (acc : List Nat), 0 ∉ acc →
    0 ∉ fmt_lu_digits fuel n acc := by
  intro fuel
  induction fuel with
  | zero => intro n acc h; simpa [fmt_lu_digits] using h
  | succ f ih =>
    intro n acc h
    simp only [fmt_lu_digits]
    have h1 : 0 ∉ (48 + n % 10) :: acc := by
      simp only [List.mem_cons, not_or]
      exact ⟨by omega, h⟩
    split_ifs with h0
    · exact h1
    · exact ih _ _ h1

theorem fmt_lu_ne_zero (n : Nat) : 0 ∉ fmt_lu n :=
  fmt_lu_digits_ne_zero _ _ _ (by simp)

theorem fmt_lu_digits_length (k : Nat) : ∀ (fuel n : Nat) (acc : List Nat), n < 10 ^ (k + 1) →
    (fmt_lu_digits fuel n acc).length ≤ acc.length + (k + 1) := by
  induction k with
  | zero =>
    intro fuel n acc hn
    cases fuel with
    | zero => simp [fmt_lu_digits]
    | succ f =>
      have : n / 10 = 0 := by omega
      simp [fmt_lu_digits, this]
  | succ k ih =>
    intro fuel n acc hn
    cases fuel with
    | zero => simp [fmt_lu_digits]
    | succ f =>
      simp only [fmt_lu_digits]
      split_ifs with h0
      · simp
      · have h1 : n / 10 < 10 ^ (k + 1) := by
          rw [Nat.div_lt_iff_lt_mul (by norm_num)]
          calc n < 10 ^ (k + 1 + 1) := hn
            _ = 10 ^ (k + 1) * 10 := by ring
        have := ih f (n / 10) ((48 + n % 10) :: acc) h1
        simp only [List.length_cons] at this
        omega

theorem fmt_lu_length_le (n : Nat) (hn : n < 10000) : (fmt_lu n).length ≤ 4 := by
  have := fmt_lu_digits_length 3 (n + 1) n [] (by norm_num; exact hn)
  simpa [fmt_lu] using this

theorem strlen_append (s rest : List Nat) (h : 0 ∉ s) :
    strlen (s ++ 0 :: rest) = some s.length := by
  induction s with
  | nil => simp [strlen]
  | cons c s ih =>
    have hc : c ≠ 0 := fun e => h (by simp [e])
    have hs : 0 ∉ s := fun e => h (by simp [e])
    simp [strlen, hc, ih hs]

theorem wire_message_sprintf (msg text : List Nat) (h0 : 0 ∉ text)
    (hlen : text.length + 1 ≤ msg.length) :
    (sprintf msg text).bind wire_message = some text := by
  rw [sprintf, writeAt_zero _ _ (by simpa using hlen)]
  simp only [Option.some_bind, wire_message, List.append_assoc, List.singleton_append]
  rw [strlen_append _ _ h0]
  simp

theorem text_404_eq : text_404 = some literal_404 := by decide

theorem text_200_eq (content rest : List Nat) (h0 : 0 ∉ content) :
    text_200 (content ++ 0 :: rest) = some (framed_200 content) := by
  have e1 : bytes "HTTP/1.1 200 Ok\r\nConnection: Keep-Alive\r\nContent-Length: " =
      bytes "HTTP/1.1 200 Ok\r\n" ++ bytes "Connection: Keep-Alive\r\n" ++ bytes "Content-Length: " := by
    decide
  have e2 : bytes "\r\nContent-Type: text/html; charset=utf-8\r\nKeep-Alive: timeout=5, max=1000\r\n\r\n" =
      bytes "\r\n" ++ bytes "Content-Type: text/html; charset=utf-8\r\n" ++
        bytes "Keep-Alive: timeout=5, max=1000\r\n" ++ bytes "\r\n" := by
    decide
  simp only [text_200, strlen_append _ _ h0, Option.map_some', framed_200, e1, e2,
    List.take_left', List.append_assoc]

theorem framed_200_no_nul (content : List Nat) (h0 : 0 ∉ content) : 0 ∉ framed_200 content := by
  have a1 : 0 ∉ bytes "HTTP/1.1 200 Ok\r\nConnection: Keep-Alive\r\nContent-Length: " := by decide
  have a2 : 0 ∉ bytes "\r\nContent-Type: text/html; charset=utf-8\r\nKeep-Alive: timeout=5, max=1000\r\n\r\n" := by
    decide
  have a3 : 0 ∉ bytes "\r\n" := by decide
  have a4 := fmt_lu_ne_zero (content.length + 2)
  simp only [framed_200, List.mem_append, not_or]
  exact ⟨⟨⟨⟨a1, a4⟩, a2⟩, h0⟩, a3⟩

theorem framed_200_length (content : List Nat) (h : content.length < MAX_CONTENT_LENGTH) :
    (framed_200 content).length + 1 ≤ MAXBUFSIZE := by
  have a1 : (bytes "HTTP/1.1 200 Ok\r\nConnection: Keep-Alive\r\nContent-Length: ").length = 57 := by
    decide
  have a2 : (bytes "\r\nContent-Type: text/html; charset=utf-8\r\nKeep-Alive: timeout=5, max=1000\r\n\r\n").length = 77 := by
    decide
  have a3 : (bytes "\r\n").length = 2 := by decide
  have hM : MAX_CONTENT_LENGTH = 8192 := rfl
  have hB : MAXBUFSIZE = 16384 := by decide
  have a4 := fmt_lu_length_le (content.length + 2) (by omega)
  simp only [framed_200, List.length_append, a1, a2, a3, hB]
  omega

theorem strlen_none (s : List Nat) (h : 0 ∉ s) : strlen s = none := by
  induction s with
  | nil => rfl
  | cons c s ih =>
    have hc : c ≠ 0 := fun e => h (by simp [e])
    have hs : 0 ∉ s := fun e => h (by simp [e])
    simp [strlen, hc, ih hs]

theorem response_unterminated (fs : FileSystem) (filepath body msg content : List Nat)
    (hfile : fs filepath = some content) (hnul : 0 ∉ content)
    (hsize : content.length = body.length) : response fs filepath body msg = none := by
  have htake : content.take body.length = content := List.take_of_length_le (by omega)
  have hw : writeAt body 0 content = some content := by
    rw [writeAt_zero _ _ (by omega), hsize]
    simp
  have hne : ¬ ((content.length : Int) = -1) := by omega
  simp [response, respond, read_file, hfile, htake, hw, hne, text_200, strlen_none _ hnul]

theorem MAXBUFSIZE_eq : MAXBUFSIZE = 16384 := by decide

theorem strcmp_tail (t rest : List Nat) (ht : t.length = 4) :
    ∃ v, strcmp (t ++ 0 :: rest) (CRLFCRLF ++ [0]) = some v ∧ (v = 0 ↔ t = CRLFCRLF) := by
  match t, ht with
  | [a, b, c, d], _ =>
    simp only [CRLFCRLF, List.cons_append, List.nil_append, strcmp]
    by_cases ha : a = 13
    · by_cases hb : b = 10
      · by_cases hc : c = 13
        · by_cases hd : d = 10
          · subst ha hb hc hd; simp
          · refine ⟨(d : Int) - 10, ?_, ?_⟩
            · subst ha hb hc; simp [hd]
            · simp [hd]; omega
        · refine ⟨(c : Int) - 13, ?_, ?_⟩
          · subst ha hb; simp [hc]
          · simp [hc]; omega
      · refine ⟨(b : Int) - 10, ?_, ?_⟩
        · subst ha; simp [hb]
        · simp [hb]; omega
    · refine ⟨(a : Int) - 13, ?_, ?_⟩
      · simp [ha]
      · simp [ha]; omega

theorem recv_check_spec (l rest : List Nat) (r : Int) (hl : 4 ≤ l.length) :
    (CRLFCRLF <:+ l →
      recv_check { len := l.length, remaining := r, buf := l ++ 0 :: rest } =
        .returned l.length (l ++ 0 :: rest)) ∧
    (¬ CRLFCRLF <:+ l →
      recv_check { len := l.length, remaining := r, buf := l ++ 0 :: rest } =
        .looping { len := l.length, remaining := r, buf := l ++ 0 :: rest }) := by
  have h0 : ¬ ((l.length : Int) = 0) := by omega
  have h4 : ¬ ((l.length : Int) - 4 < 0) := by omega
  have hn : ((l.length : Int) - 4).toNat = l.length - 4 := by omega
  have hd : (l ++ 0 :: rest).drop (l.length - 4) = l.drop (l.length - 4) ++ 0 :: rest :=
    List.drop_append_of_le_length (by omega)
  have ht : (l.drop (l.length - 4)).length = 4 := by simp; omega
  obtain ⟨v, hv, hiff⟩ := strcmp_tail (l.drop (l.length - 4)) rest ht
  have hsuf : CRLFCRLF <:+ l ↔ l.drop (l.length - 4) = CRLFCRLF := by
    rw [List.suffix_iff_eq_drop]
    simp only [CRLFCRLF, List.length_cons, List.length_nil]
    exact eq_comm
  simp only [recv_check, h0, h4, if_false, hn, hd, hv]
  constructor
  · intro h
    have : v = 0 := hiff.2 (hsuf.1 h)
    simp [this]
  · intro h
    have : ¬ v = 0 := fun e => h (hsuf.2 (hiff.1 e))
    simp [this]

theorem recv_store_spec (acc b d : List Nat) (r : Int) (hfit : d.length + 1 ≤ b.length) :
    recv_store { len := acc.length, remaining := r, buf := acc ++ b } d =
      some { len := ((acc ++ d).length : Int), remaining := r - d.length,
             buf := (acc ++ d) ++ 0 :: b.drop (d.length + 1) } := by
  have h1 : writeAt (acc ++ b) acc.length d = some ((acc ++ d) ++ b.drop d.length) :=
    writeAt_append acc b d (by omega)
  have h2 : writeAt ((acc ++ d) ++ b.drop d.length) (acc ++ d).length [0] =
      some ((acc ++ d) ++ 0 :: b.drop (d.length + 1)) := by
    rw [writeAt_append (acc ++ d) _ [0] (by simp; omega)]
    simp [List.drop_drop]
  have e1 : ((acc.length : Int)).toNat = acc.length := by omega
  have e2 : ((acc.length : Int) + (d.length : Int)).toNat = (acc ++ d).length := by
    simp; omega
  simp only [recv_store, e1, h1, e2, h2]
  simp

theorem recv_iter_spec (acc b d : List Nat) (r : Int) (hfit : d.length + 1 ≤ b.length)
    (hl : 4 ≤ (acc ++ d).length) :
    (CRLFCRLF <:+ acc ++ d →
      recv_iter { len := acc.length, remaining := r, buf := acc ++ b } (.data d) =
        .returned (acc ++ d).length ((acc ++ d) ++ 0 :: b.drop (d.length + 1))) ∧
    (¬ CRLFCRLF <:+ acc ++ d →
      recv_iter { len := acc.length, remaining := r, buf := acc ++ b } (.data d) =
        .looping { len := (acc ++ d).length, remaining := r - d.length,
                   buf := (acc ++ d) ++ 0 :: b.drop (d.length + 1) }) := by
  have := recv_check_spec (acc ++ d) (b.drop (d.length + 1)) (r - d.length) hl
  simp only [recv_iter, recv_store_spec acc b d r hfit]
  exact this

theorem recv_all_from_append (s1 s2 : List RecvResult) : ∀ st : RecvState,
    recv_all_from st (s1 ++ s2) =
      match recv_all_from st s1 with
      | .looping st1 => recv_all_from st1 s2
      | o => o := by
  induction s1 with
  | nil => intro st; simp [recv_all_from]
  | cons r s1 ih =>
    intro st
    simp only [List.cons_append, recv_all_from]
    cases h : recv_iter st r with
    | returned ret buf => simp
    | fault => simp
    | looping st1 => simp [ih st1]

/-- Feeding fragments none of which ends the accumulated bytes on the
terminator keeps the loop going; the buffer holds the accumulated bytes. -/
theorem recv_all_from_looping : ∀ (frags : List (List Nat)) (acc b : List Nat) (r : Int),
    frags.flatten.length + 1 ≤ b.length →
    (∀ k, 0 < k → k ≤ frags.length →
      4 ≤ (acc ++ (frags.take k).flatten).length ∧ ¬ CRLFCRLF <:+ acc ++ (frags.take k).flatten) →
    ∃ b1, recv_all_from { len := acc.length, remaining := r, buf := acc ++ b }
            (frags.map .data) =
          .looping { len := (acc ++ frags.flatten).length,
                     remaining := r - frags.flatten.length,
                     buf := (acc ++ frags.flatten) ++ b1 } ∧
      b1.length + frags.flatten.length = b.length ∧
      b1.drop 1 = b.drop (frags.flatten.length + 1) := by
  intro frags
  induction frags with
  | nil =>
    intro acc b r _ _
    exact ⟨b, by simp [recv_all_from], by simp, by simp⟩
  | cons f fs ih =>
    intro acc b r hfit hk
    have hlen : (f :: fs).flatten.length = f.length + fs.flatten.length := by simp
    have h1 := hk 1 (by omega) (by simp)
    simp only [List.take_succ_cons, List.take_zero, List.flatten_cons, List.flatten_nil,
      List.append_nil] at h1
    rw [hlen] at hfit
    have hstep := (recv_iter_spec acc b f r (by omega) h1.1).2 h1.2
    obtain ⟨b1, hrun, hb1, hdrop⟩ := ih (acc ++ f) (0 :: b.drop (f.length + 1)) (r - f.length)
      (by simp only [List.length_cons, List.length_drop]; omega)
      (by
        intro k hk0 hkl
        have := hk (k + 1) (by omega) (by simp only [List.length_cons]; omega)
        simpa [List.append_assoc] using this)
    simp only [List.length_cons, List.length_drop] at hb1
    refine ⟨b1, ?_, ?_, ?_⟩
    · simp only [List.map_cons, recv_all_from, hstep, hrun, List.flatten_cons]
      simp only [List.append_assoc, List.length_append, Nat.cast_add]
      congr 2
      omega
    · rw [hlen]; omega
    · rw [hdrop, hlen]
      simp only [List.drop_succ_cons, List.drop_drop]
      congr 1
      omega

theorem take_flatten_length_ge (frags : List (List Nat)) (f : List Nat)
    (hf : frags.head? = some f) (k : Nat) (hk : 0 < k) :
    f.length ≤ (frags.take k).flatten.length := by
  cases frags with
  | nil => simp at hf
  | cons g gs =>
    simp only [List.head?_cons, Option.some.injEq] at hf
    subst hf
    obtain ⟨j, rfl⟩ : ∃ j, k = j + 1 := ⟨k - 1, by omega⟩
    simp

/-- The run of `recv_all` on the first `k` fragments, when none of the first
`k` reads ends on the terminator and the first has at least 4 bytes. -/
theorem recv_all_initial_looping (frags : List (List Nat)) (buf0 : List Nat) (k : Nat)
    (hfit : (frags.take k).flatten.length + 1 ≤ buf0.length)
    (hfirst : ∀ f, frags.head? = some f → 4 ≤ f.length)
    (hearly : ∀ j, 0 < j → j ≤ k → j ≤ frags.length → ¬ CRLFCRLF <:+ (frags.take j).flatten) :
    ∃ b1, recv_all ((frags.take k).map .data) buf0 =
        .looping { len := (frags.take k).flatten.length,
                   remaining := (MAXBUFSIZE : Int) - 1 - (frags.take k).flatten.length,
                   buf := (frags.take k).flatten ++ b1 } ∧
      b1.length + (frags.take k).flatten.length = buf0.length ∧
      b1.drop 1 = buf0.drop ((frags.take k).flatten.length + 1) := by
  have key := recv_all_from_looping (frags.take k) [] buf0 ((MAXBUFSIZE : Int) - 1) hfit
    (by
      intro j hj0 hjl
      have hjk : j ≤ k := by
        have := List.length_take_le k frags
        omega
      have hjf : j ≤ frags.length := by
        have := List.length_take_le' k frags
        omega
      have ht : (frags.take k).take j = frags.take j := by
        rw [List.take_take, Nat.min_eq_left hjk]
      rw [ht]
      simp only [List.nil_append]
      refine ⟨?_, hearly j hj0 hjk hjf⟩
      cases hfr : frags.head? with
      | none =>
        have : frags = [] := by simpa using hfr
        subst this
        simp at hjf
        omega
      | some f =>
        have h4 := hfirst f hfr
        have := take_flatten_length_ge frags f hfr j hj0
        omega)
  simpa [recv_all] using key

/-- The single `recv` that completes a request. -/
theorem recv_all_from_last (acc b last : List Nat) (r : Int)
    (hfit : last.length + 1 ≤ b.length) (hterm : CRLFCRLF <:+ acc ++ last) :
    recv_all_from { len := acc.length, remaining := r, buf := acc ++ b } [.data last] =
      .returned (acc ++ last).length ((acc ++ last) ++ 0 :: b.drop (last.length + 1)) := by
  have h4 : 4 ≤ (acc ++ last).length := by
    have := hterm.length_le
    simpa [CRLFCRLF] using this
  simp only [recv_all_from, (recv_iter_spec acc b last r hfit h4).1 hterm]

theorem recv_check_ret (st : RecvState) (b : List Nat) :
    recv_check st ≠ .returned (-1) b := by
  unfold recv_check
  split_ifs
  · simp
  · simp
  · cases hs : strcmp (st.buf.drop (st.len - 4).toNat) (CRLFCRLF ++ [0]) with
    | none => simp
    | some c =>
      simp only
      split_ifs
      · simp; omega
      · simp

theorem recv_store_general (st : RecvState) (d : List Nat) (h0 : 0 ≤ st.len)
    (hfit : st.len.toNat + d.length + 1 ≤ st.buf.length) :
    ∃ b, recv_store st d =
        some { len := st.len + d.length, remaining := st.remaining - d.length, buf := b } ∧
      b.length = st.buf.length ∧ b[(st.len + d.length).toNat]? = some 0 := by
  obtain ⟨len, rem, buf⟩ := st
  simp only at h0 hfit ⊢
  have hacc : (buf.take len.toNat).length = len.toNat := by
    rw [List.length_take]; omega
  have hlen : ((buf.take len.toNat).length : Int) = len := by rw [hacc]; omega
  have hspec := recv_store_spec (buf.take len.toNat) (buf.drop len.toNat) d rem
    (by rw [List.length_drop]; omega)
  rw [hlen, List.take_append_drop] at hspec
  refine ⟨buf.take len.toNat ++ d ++ 0 :: (buf.drop len.toNat).drop (d.length + 1), ?_, ?_, ?_⟩
  · rw [hspec]
    simp only [List.length_append, Nat.cast_add, hlen]
  · simp only [List.length_append, List.length_cons, List.length_drop, hacc]
    omega
  · have e : (len + (d.length : Int)).toNat = (buf.take len.toNat ++ d).length := by
      rw [List.length_append, hacc]; omega
    rw [e, List.getElem?_append_right (le_refl _)]
    simp

theorem reach_invariant (buf0 : List Nat) (st : RecvState) (hcap : buf0.length = MAXBUFSIZE)
    (h : Reach buf0 st) :
    st.len + st.remaining = (MAXBUFSIZE : Int) - 1 ∧ 0 ≤ st.remaining ∧ 0 ≤ st.len ∧
      st.buf.length = MAXBUFSIZE := by
  have hB := MAXBUFSIZE_eq
  induction h with
  | init => simp [hcap, hB]
  | step st st1 d _ hd hiter ih =>
    obtain ⟨hsum, hrem, hlen, hbuf⟩ := ih
    have hcount : recv_count st.remaining ≤ st.remaining := by
      unfold recv_count; split_ifs <;> omega
    obtain ⟨b, hst, hb, _⟩ := recv_store_general st d hlen (by rw [hbuf, hB]; omega)
    rw [hst] at hiter
    simp only [Option.some.injEq] at hiter
    subst hiter
    simp only
    refine ⟨by omega, by omega, by omega, by rw [hb, hbuf]⟩

/-- A stream without any CR never makes `recv_all` return: after all its
fragments the loop is still running. -/
theorem recv_all_no_cr_looping (frags : List (List Nat)) (buf0 : List Nat)
    (hcap : buf0.length = MAXBUFSIZE)
    (hfit : frags.flatten.length ≤ MAXBUFSIZE - 1)
    (hcr : ∀ f ∈ frags, 13 ∉ f)
    (hfirst : ∀ f, frags.head? = some f → 4 ≤ f.length) :
    ∃ b, recv_all (frags.map .data) buf0 =
      .looping { len := frags.flatten.length,
                 remaining := (MAXBUFSIZE : Int) - 1 - frags.flatten.length, buf := b } := by
  have hB := MAXBUFSIZE_eq
  obtain ⟨b1, hrun, _, _⟩ := recv_all_initial_looping frags buf0 frags.length
    (by rw [List.take_length]; omega) hfirst
    (by
      intro j _ _ _ hsuf
      have h13 : 13 ∈ (frags.take j).flatten := hsuf.subset (by simp [CRLFCRLF])
      obtain ⟨f, hf, hmem⟩ := List.mem_flatten.1 h13
      exact hcr f (List.mem_of_mem_take hf) hmem)
  rw [List.take_length] at hrun
  exact ⟨_, hrun⟩

theorem flatten_replicate_length (n : Nat) (l : List Nat) :
    (List.replicate n l).flatten.length = n * l.length := by
  induction n with
  | zero => simp
  | succ n ih =>
    rw [List.replicate_succ, List.flatten_cons, List.length_append, ih, Nat.succ_mul]
    omega

theorem oversized_stream_length (k : Nat) : (oversized_stream k).flatten.length = 16383 := by
  simp only [oversized_stream, List.flatten_append, List.length_append,
    flatten_replicate_length, List.length_replicate, List.flatten_cons, List.flatten_nil,
    List.append_nil, List.length_nil]
  omega

theorem oversized_stream_looping (k : Nat) :
    ∃ b, recv_all ((oversized_stream k).map .data) (List.replicate MAXBUFSIZE 0) =
      .looping { len := 16383, remaining := 0, buf := b } := by
  have hB := MAXBUFSIZE_eq
  obtain ⟨b, hb⟩ := recv_all_no_cr_looping (oversized_stream k) (List.replicate MAXBUFSIZE 0)
    (List.length_replicate _ _)
    (by rw [oversized_stream_length, hB])
    (by
      intro f hf
      simp only [oversized_stream, List.mem_append, List.mem_replicate, List.mem_singleton] at hf
      rcases hf with (⟨_, rfl⟩ | rfl) | ⟨_, rfl⟩
      · simp only [List.mem_replicate]; omega
      · simp only [List.mem_replicate]; omega
      · exact List.not_mem_nil _)
    (by
      intro f hf
      have hh : (oversized_stream k).head? = some (List.replicate 255 97) := rfl
      rw [hh] at hf
      simp only [Option.some.injEq] at hf
      subst hf
      rw [List.length_replicate]
      omega)
  refine ⟨b, ?_⟩
  rw [hb, oversized_stream_length, hB]
  rfl

theorem send_all_loop_spec (send : SendOracle) (len : Nat) (hlen : len ≤ INT_MAX)
    (hc : ∀ i off cnt, 0 < cnt → send i off cnt = -1 ∨ (1 ≤ send i off cnt ∧ send i off cnt ≤ cnt)) :
    ∀ (fuel i : Nat) (total : Int), 0 ≤ total → total ≤ len → (len : Int) - total ≤ fuel →
      OffersUnsentSuffix len total (send_all_loop send len fuel i total).calls ∧
      ((send_all_loop send len fuel i total).ret = some (len : Int) ∨
        (send_all_loop send len fuel i total).ret = some (-1)) ∧
      ((∀ c ∈ (send_all_loop send len fuel i total).calls, c.result ≠ -1) →
        (send_all_loop send len fuel i total).ret = some (len : Int)) ∧
      (∀ c ∈ (send_all_loop send len fuel i total).calls, c.result = -1 →
        (send_all_loop send len fuel i total).ret = some (-1) ∧
        (send_all_loop send len fuel i total).calls.getLast? = some c ∧
        ∀ c1 ∈ (send_all_loop send len fuel i total).calls.dropLast, c1.result ≠ -1) ∧
      (∀ c ∈ (send_all_loop send len fuel i total).calls,
        ∃ j, c.result = send j c.offset c.count) := by
  have hI : INT_MAX = 2147483647 := rfl
  intro fuel
  induction fuel with
  | zero =>
    intro i total h0 hle hfuel
    have ht : total = len := by omega
    subst ht
    have hlt : ¬ toSizeT (len : Int) < len := by
      unfold toSizeT; omega
    simp [send_all_loop, hlt, OffersUnsentSuffix]
  | succ fuel ih =>
    intro i total h0 hle hfuel
    by_cases hlt : toSizeT total < len
    · have htl : total < len := by
        unfold toSizeT at hlt; omega
      have hcnt : (len + 18446744073709551616 - toSizeT total) % 18446744073709551616 =
          len - total.toNat := by
        unfold toSizeT; omega
      have hcpos : 0 < len - total.toNat := by omega
      rcases hc i total (len - total.toNat) hcpos with herr | ⟨h1, h2⟩
      · have hbc : toInt32 (send i total (len - total.toNat)) = -1 := by
          rw [herr]; rfl
        simp only [send_all_loop, hlt, if_true, hcnt, hbc]
        refine ⟨?_, by simp, ?_, ?_, ?_⟩
        · simp only [OffersUnsentSuffix, and_true, true_and]
          omega
        · intro h
          exact absurd rfl (h _ (List.mem_singleton.2 rfl))
        · intro c hcm _
          rw [List.mem_singleton] at hcm
          subst hcm
          simp
        · intro c hcm
          rw [List.mem_singleton] at hcm
          subst hcm
          exact ⟨i, herr.symm⟩
      · have hbc : toInt32 (send i total (len - total.toNat)) = send i total (len - total.toNat) := by
          unfold toInt32; omega
        have hne : ¬ send i total (len - total.toNat) = -1 := by omega
        have hsum : toInt32 (total + send i total (len - total.toNat)) =
            total + send i total (len - total.toNat) := by
          unfold toInt32; omega
        obtain ⟨ih1, ih2, ih3, ih4, ih5⟩ := ih (i + 1) (total + send i total (len - total.toNat))
          (by omega) (by omega) (by omega)
        simp only [send_all_loop, hlt, if_true, hcnt, hbc, hne, if_false, hsum]
        refine ⟨?_, ih2, ?_, ?_, ?_⟩
        · simp only [OffersUnsentSuffix, true_and]
          exact ⟨by omega, ih1⟩
        · intro h
          exact ih3 (fun c hcm => h c (List.mem_cons_of_mem _ hcm))
        · intro c hcm hres
          rcases List.mem_cons.1 hcm with rfl | hcm
          · exact absurd hres hne
          · obtain ⟨r1, r2, r3⟩ := ih4 c hcm hres
            have hnil : (send_all_loop send len fuel (i + 1)
                (total + send i total (len - total.toNat))).calls ≠ [] :=
              List.ne_nil_of_mem hcm
            obtain ⟨x, xs, hx⟩ := List.exists_cons_of_ne_nil hnil
            rw [hx] at r2 r3 ⊢
            refine ⟨r1, ?_, ?_⟩
            · simpa [List.getLast?_cons_cons] using r2
            · intro c1 hc1
              rw [List.dropLast_cons₂] at hc1
              rcases List.mem_cons.1 hc1 with rfl | hc1
              · exact hne
              · exact r3 c1 hc1
        · intro c hcm
          rcases List.mem_cons.1 hcm with rfl | hcm
          · exact ⟨i, rfl⟩
          · exact ih5 c hcm
    · have ht : total = len := by
        unfold toSizeT at hlt; omega
      subst ht
      simp [send_all_loop, hlt, OffersUnsentSuffix]

theorem send_all_loop_complete (send : SendOracle) (len : Nat) (hlen : len ≤ INT_MAX)
    (hc : ∀ i off cnt, 0 < cnt → send i off cnt = -1 ∨ (1 ≤ send i off cnt ∧ send i off cnt ≤ cnt)) :
    ∀ (fuel i : Nat) (total : Int), 0 ≤ total → total ≤ len → (len : Int) - total ≤ fuel →
      ReliableWrite send len i total (send_all_loop send len fuel i total).calls
        (send_all_loop send len fuel i total).ret ∧
      ((send_all_loop send len fuel i total).ret = some (len : Int) →
        total + ((send_all_loop send len fuel i total).calls.map SendCall.result).sum =
          (len : Int)) ∧
      ((send_all_loop send len fuel i total).calls.length : Int) ≤ (len : Int) - total := by
  have hI : INT_MAX = 2147483647 := rfl
  intro fuel
  induction fuel with
  | zero =>
    intro i total h0 hle hfuel
    have ht : total = len := by omega
    subst ht
    have hlt : ¬ toSizeT (len : Int) < len := by
      unfold toSizeT; omega
    simp [send_all_loop, hlt, ReliableWrite]
  | succ fuel ih =>
    intro i total h0 hle hfuel
    by_cases hlt : toSizeT total < len
    · have htl : total < len := by
        unfold toSizeT at hlt; omega
      have hcnt : (len + 18446744073709551616 - toSizeT total) % 18446744073709551616 =
          len - total.toNat := by
        unfold toSizeT; omega
      have hcpos : 0 < len - total.toNat := by omega
      have hcast : ((len - total.toNat : Nat) : Int) = (len : Int) - total := by omega
      rcases hc i total (len - total.toNat) hcpos with herr | ⟨h1, h2⟩
      · have hbc : toInt32 (send i total (len - total.toNat)) = -1 := by
          rw [herr]; rfl
        simp only [send_all_loop, hlt, if_true, hcnt, hbc]
        refine ⟨?_, ?_, ?_⟩
        · rw [ReliableWrite]
          exact ⟨htl, rfl, hcast, herr.symm, Or.inl ⟨rfl, rfl, rfl⟩⟩
        · intro h
          simp only [Option.some.injEq] at h
          omega
        · simp only [List.length_singleton]
          omega
      · have hbc : toInt32 (send i total (len - total.toNat)) = send i total (len - total.toNat) := by
          unfold toInt32; omega
        have hne : ¬ send i total (len - total.toNat) = -1 := by omega
        have hsum : toInt32 (total + send i total (len - total.toNat)) =
            total + send i total (len - total.toNat) := by
          unfold toInt32; omega
        obtain ⟨ih1, ih2, ih3⟩ := ih (i + 1) (total + send i total (len - total.toNat))
          (by omega) (by omega) (by omega)
        simp only [send_all_loop, hlt, if_true, hcnt, hbc, hne, if_false, hsum]
        refine ⟨?_, ?_, ?_⟩
        · rw [ReliableWrite]
          exact ⟨htl, rfl, hcast, rfl, Or.inr ⟨hne, h1, h2, ih1⟩⟩
        · intro h
          have := ih2 h
          simp only [List.map_cons, List.sum_cons]
          omega
        · simp only [List.length_cons, Nat.cast_add, Nat.cast_one]
          omega
    · have ht : total = len := by
        unfold toSizeT at hlt; omega
      subst ht
      simp [send_all_loop, hlt, ReliableWrite]

theorem recv_iter_short (acc b d : List Nat) (r : Int) (hfit : d.length + 1 ≤ b.length)
    (h0 : 0 < (acc ++ d).length) (h4 : (acc ++ d).length < 4) :
    recv_iter { len := acc.length, remaining := r, buf := acc ++ b } (.data d) = .fault := by
  have e0 : ¬ (((acc ++ d).length : Int) = 0) := by omega
  have e4 : ((acc ++ d).length : Int) - 4 < 0 := by omega
  simp only [recv_iter, recv_store_spec acc b d r hfit, recv_check, e0, e4, if_true, if_false]

theorem recv_all_from_returned (st : RecvState) (r : RecvResult) (rs : List RecvResult)
    (ret : Int) (b : List Nat) (h : recv_iter st r = .returned ret b) :
    recv_all_from st (r :: rs) = .returned ret b := by
  simp only [recv_all_from, h]

theorem recv_all_from_fault (st : RecvState) (r : RecvResult) (rs : List RecvResult)
    (h : recv_iter st r = .fault) : recv_all_from st (r :: rs) = .fault := by
  simp only [recv_all_from, h]

/-! ## The claims -/

/-- C1, amended. Fragmentation independence of `recv_all`: for every request
that ends in CR LF CR LF and fits the buffer, and every way of splitting it
into non-empty fragments delivered one per `recv` call (each of at most
`MAXDATASIZE - 1` bytes, which with the fit is at most the count `recv_all`
asks for) such that the first fragment has at least 4 bytes and no read before
the last one ends on CR LF CR LF, `recv_all` returns the request's full
length after the last fragment and not before (the terminator is detected
once), and leaves the request followed by the sentinel at the start of the
buffer and the rest of the buffer untouched: the same result as when the
request is delivered in a single read. -/
theorem recv_all_fragmentation_independent (req : List Nat) (frags : List (List Nat))
    (buf0 : List Nat)
    (hcap : buf0.length = MAXBUFSIZE)
    (hsplit : frags.flatten = req)
    (hfit : req.length ≤ MAXBUFSIZE - 1)
    (hterm : CRLFCRLF <:+ req)
    (hfrag : ∀ f ∈ frags, f ≠ [] ∧ f.length ≤ MAXDATASIZE - 1)
    (hfirst : ∀ f, frags.head? = some f → 4 ≤ f.length)
    (hearly : ∀ k, 0 < k → k < frags.length → ¬ CRLFCRLF <:+ (frags.take k).flatten) :
    recv_all (frags.map .data) buf0 =
        .returned req.length (req ++ 0 :: buf0.drop (req.length + 1)) ∧
    (∀ k, k < frags.length → ∃ st, recv_all ((frags.take k).map .data) buf0 = .looping st) ∧
    (req.length ≤ MAXDATASIZE - 1 →
      recv_all [.data req] buf0 = recv_all (frags.map .data) buf0) := by
  have hB := MAXBUFSIZE_eq
  have hsingle : recv_all [.data req] buf0 =
      .returned req.length (req ++ 0 :: buf0.drop (req.length + 1)) := by
    have := recv_all_from_last [] buf0 req ((MAXBUFSIZE : Int) - 1) (by omega) (by simpa using hterm)
    simpa [recv_all] using this
  have hpre : ∀ k, k < frags.length → (frags.take k).flatten.length + 1 ≤ buf0.length := by
    intro k hk
    have h1 : (frags.take k).flatten.length ≤ frags.flatten.length := by
      have e : frags.flatten = (frags.take k).flatten ++ (frags.drop k).flatten := by
        rw [← List.flatten_append, List.take_append_drop]
      rw [e, List.length_append]
      omega
    rw [hsplit] at h1
    omega
  have hmain : recv_all (frags.map .data) buf0 =
      .returned req.length (req ++ 0 :: buf0.drop (req.length + 1)) := by
    rcases List.eq_nil_or_concat frags with hnil | ⟨init, last, hfr⟩
    · subst hnil
      subst hsplit
      have := hterm.length_le
      simp [CRLFCRLF] at this
    · rw [List.concat_eq_append] at hfr
      have htk : frags.take init.length = init := by
        rw [hfr]; simp
      have hlt : init.length < frags.length := by rw [hfr]; simp
      obtain ⟨b1, hrun, hb1, hdrop⟩ := recv_all_initial_looping frags buf0 init.length
        (hpre _ hlt) hfirst (fun j hj0 hjk _ => hearly j hj0 (by omega))
      rw [htk] at hrun hb1 hdrop
      have hreq : req = init.flatten ++ last := by
        rw [← hsplit, hfr]; simp
      have hlen : req.length = init.flatten.length + last.length := by
        rw [hreq]; simp
      have hlast := recv_all_from_last init.flatten b1 last
        ((MAXBUFSIZE : Int) - 1 - init.flatten.length) (by omega) (by rw [← hreq]; exact hterm)
      have hmap : frags.map RecvResult.data = init.map .data ++ [.data last] := by
        rw [hfr]; simp
      rw [recv_all] at hrun ⊢
      rw [hmap, recv_all_from_append, hrun]
      simp only [hlast, ← hreq]
      have hd : b1.drop (last.length + 1) = buf0.drop (req.length + 1) := by
        have : b1.drop (last.length + 1) = (b1.drop 1).drop last.length := by
          rw [List.drop_drop, Nat.add_comm]
        rw [this, hdrop, List.drop_drop, hlen]
        congr 1
        omega
      rw [hd]
  refine ⟨hmain, ?_, fun _ => hsingle.trans hmain.symm⟩
  intro k hk
  obtain ⟨b1, hrun, _, _⟩ := recv_all_initial_looping frags buf0 k (hpre _ hk) hfirst
    (fun j hj0 hjk _ => hearly j hj0 (by omega))
  exact ⟨_, hrun⟩

theorem recv_all_fragmentation_independent_witness :
    CRLFCRLF <:+ bytes "GET /index.html HTTP/1.1\r\n\r\n" ∧
    recv_all [.data (bytes "GET /"), .data (bytes "index.html HTTP/1.1\r\n"), .data (bytes "\r\n")]
        (List.replicate MAXBUFSIZE 0) =
      .returned (bytes "GET /index.html HTTP/1.1\r\n\r\n").length
        (bytes "GET /index.html HTTP/1.1\r\n\r\n" ++
          0 :: (List.replicate MAXBUFSIZE 0).drop
            ((bytes "GET /index.html HTTP/1.1\r\n\r\n").length + 1)) :=
  ⟨by decide,
   (recv_all_fragmentation_independent (bytes "GET /index.html HTTP/1.1\r\n\r\n")
      [bytes "GET /", bytes "index.html HTTP/1.1\r\n", bytes "\r\n"]
      (List.replicate MAXBUFSIZE 0) (List.length_replicate _ _) (by decide) (by decide)
      (by decide) (by decide)
      (by
        intro f hf
        simp only [List.head?_cons, Option.some.injEq] at hf
        subst hf
        decide)
      (by
        intro k h0 hk
        simp only [List.length_cons, List.length_nil] at hk
        interval_cases k <;> decide)).1⟩

/-- C1, as the claim states it, fails. The 27-byte request
`POST /f HTTP/1.1 CRLF CRLF a=1 CRLF CRLF` ends in CR LF CR LF and fits the
buffer; delivered as the two non-empty fragments `POST /f HTTP/1.1 CRLF CRLF`
and `a=1 CRLF CRLF`, `recv_all` returns 20 after the first fragment, not the
full length 27 that a single read gives. And when the first fragment of
`GET / HTTP/1.1 CRLF CRLF` is the single byte `G`, the `strcmp` at
`&buf[len - 4]` starts before the buffer. -/
theorem recv_all_fragmentation_counterexample :
    CRLFCRLF <:+ bytes "POST /f HTTP/1.1\r\n\r\n" ++ bytes "a=1\r\n\r\n" ∧
    recv_all [.data (bytes "POST /f HTTP/1.1\r\n\r\n"), .data (bytes "a=1\r\n\r\n")]
        (List.replicate MAXBUFSIZE 0) =
      .returned 20 (bytes "POST /f HTTP/1.1\r\n\r\n" ++ 0 :: (List.replicate MAXBUFSIZE 0).drop 21) ∧
    recv_all [.data (bytes "POST /f HTTP/1.1\r\n\r\n" ++ bytes "a=1\r\n\r\n")]
        (List.replicate MAXBUFSIZE 0) =
      .returned 27 (bytes "POST /f HTTP/1.1\r\n\r\na=1\r\n\r\n" ++
        0 :: (List.replicate MAXBUFSIZE 0).drop 28) ∧
    recv_all [.data (bytes "G"), .data (bytes "ET / HTTP/1.1\r\n\r\n")]
        (List.replicate MAXBUFSIZE 0) = .fault := by
  refine ⟨by decide, ?_, ?_, ?_⟩
  · exact recv_all_from_returned _ _ _ _ _
      ((recv_iter_spec [] (List.replicate MAXBUFSIZE 0) (bytes "POST /f HTTP/1.1\r\n\r\n")
        ((MAXBUFSIZE : Int) - 1) (by rw [List.length_replicate]; decide) (by decide)).1
        (by decide))
  · exact recv_all_from_returned _ _ _ _ _
      ((recv_iter_spec [] (List.replicate MAXBUFSIZE 0)
        (bytes "POST /f HTTP/1.1\r\n\r\n" ++ bytes "a=1\r\n\r\n")
        ((MAXBUFSIZE : Int) - 1) (by rw [List.length_replicate]; decide) (by decide)).1
        (by decide))
  · exact recv_all_from_fault _ _ _
      (recv_iter_short [] (List.replicate MAXBUFSIZE 0) (bytes "G") ((MAXBUFSIZE : Int) - 1)
        (by rw [List.length_replicate]; decide) (by decide) (by decide))

/-- C2, amended. `recv_all` has no overflow error of its own. In every state
its loop can be in (each `recv` returning at most the count requested), the
count requested is at most `remaining`, an iteration returns -1 exactly when
that `recv` call itself returned -1, and the bytes of a successful `recv` and
the sentinel are stored inside the buffer, with `len` at most
`MAXBUFSIZE - 1`. -/
theorem recv_all_error_only_from_recv (buf0 : List Nat) (st : RecvState) (r : RecvResult)
    (hcap : buf0.length = MAXBUFSIZE) (hreach : Reach buf0 st)
    (hr : ∀ d, r = .data d → (d.length : Int) ≤ recv_count st.remaining) :
    recv_count st.remaining ≤ st.remaining ∧
    ((∃ b, recv_iter st r = .returned (-1) b) ↔ r = .error) ∧
    (∀ d, r = .data d → ∃ st1, recv_store st d = some st1 ∧
      st1.len ≤ (MAXBUFSIZE : Int) - 1 ∧ st1.buf.length = MAXBUFSIZE) := by
  have hB := MAXBUFSIZE_eq
  obtain ⟨hsum, hrem, hlen, hbuf⟩ := reach_invariant buf0 st hcap hreach
  have hcount : recv_count st.remaining ≤ st.remaining := by
    unfold recv_count; split_ifs <;> omega
  have hstore : ∀ d, r = .data d → ∃ st1, recv_store st d = some st1 ∧
      st1.len ≤ (MAXBUFSIZE : Int) - 1 ∧ st1.buf.length = MAXBUFSIZE := by
    intro d hd
    have := hr d hd
    obtain ⟨b, hst, hb, _⟩ := recv_store_general st d hlen (by rw [hbuf, hB]; omega)
    exact ⟨_, hst, by simp only; omega, by simp only; rw [hb, hbuf]⟩
  refine ⟨hcount, ?_, hstore⟩
  constructor
  · rintro ⟨b, hb⟩
    cases r with
    | error => rfl
    | data d =>
      obtain ⟨st1, hst, _, _⟩ := hstore d rfl
      simp only [recv_iter, hst] at hb
      exact absurd hb (recv_check_ret st1 b)
  · rintro rfl
    exact ⟨st.buf, rfl⟩

theorem recv_all_error_only_from_recv_witness :
    (4 : Int) ≤ recv_count ((MAXBUFSIZE : Int) - 1) ∧
    ((∃ b, recv_iter
        { len := 0, remaining := (MAXBUFSIZE : Int) - 1, buf := List.replicate MAXBUFSIZE 0 }
        (.data (bytes "GET ")) = .returned (-1) b) ↔
      RecvResult.data (bytes "GET ") = .error) :=
  ⟨by decide,
   (recv_all_error_only_from_recv (List.replicate MAXBUFSIZE 0) _ (.data (bytes "GET "))
      (List.length_replicate _ _) Reach.init
      (by
        intro d hd
        simp only [RecvResult.data.injEq] at hd
        subst hd
        decide)).2.1⟩

/-- C2, as the claim states it, fails. A client sends 16383 bytes `a` with no
terminator, in reads of at most 255 bytes each; after the read that uses up the
buffer's capacity, and however many further (zero-byte) reads follow,
`recv_all` has not returned -1: it is still in its loop with `len = 16383` and
`remaining = 0`, about to call `recv` again. -/
theorem recv_all_overflow_counterexample :
    (∀ f ∈ oversized_stream 0, f.length ≤ MAXDATASIZE - 1) ∧
    (oversized_stream 0).flatten.length = MAXBUFSIZE - 1 ∧
    (¬ ∃ k b, recv_all ((oversized_stream k).map .data) (List.replicate MAXBUFSIZE 0) =
      .returned (-1) b) ∧
    (∀ k, ∃ b, recv_all ((oversized_stream k).map .data) (List.replicate MAXBUFSIZE 0) =
      .looping { len := 16383, remaining := 0, buf := b }) := by
  refine ⟨?_, ?_, ?_, oversized_stream_looping⟩
  · intro f hf
    simp only [oversized_stream, List.mem_append, List.mem_replicate, List.mem_singleton,
      List.replicate_zero, List.not_mem_nil, or_false] at hf
    rcases hf with ⟨_, rfl⟩ | rfl <;> rw [List.length_replicate] <;> decide
  · rw [oversized_stream_length, MAXBUFSIZE_eq]
  · rintro ⟨k, b, hb⟩
    obtain ⟨b1, h1⟩ := oversized_stream_looping k
    rw [h1] at hb
    cases hb

/-- C3, the defect. With nothing accumulated a zero-byte `recv` makes
`recv_all` return 0. With the 15 bytes `GET /index.html` accumulated, a `recv`
that returns zero bytes (the peer closed) does not make it return: the loop
goes on with `len = 15`, and no number of further zero-byte reads makes it
return 0. -/
theorem recv_all_peer_close_mid_request :
    (∃ b, recv_all [.data []] (List.replicate MAXBUFSIZE 0) = .returned 0 b) ∧
    (∃ b, recv_all [.data (bytes "GET /index.html"), .data []] (List.replicate MAXBUFSIZE 0) =
      .looping { len := 15, remaining := 16368, buf := b }) ∧
    (¬ ∃ k b, recv_all (.data (bytes "GET /index.html") :: List.replicate k (.data []))
        (List.replicate MAXBUFSIZE 0) = .returned 0 b) := by
  have hB := MAXBUFSIZE_eq
  have key : ∀ k, ∃ b, recv_all (.data (bytes "GET /index.html") :: List.replicate k (.data []))
      (List.replicate MAXBUFSIZE 0) = .looping { len := 15, remaining := 16368, buf := b } := by
    intro k
    have hflat : (bytes "GET /index.html" :: List.replicate k []).flatten.length = 15 := by
      rw [List.flatten_cons, List.length_append, flatten_replicate_length]
      simp only [List.length_nil, Nat.mul_zero, Nat.add_zero]
      decide
    obtain ⟨b, hb⟩ := recv_all_no_cr_looping (bytes "GET /index.html" :: List.replicate k [])
      (List.replicate MAXBUFSIZE 0) (List.length_replicate _ _)
      (by rw [hflat, hB]; omega)
      (by
        intro f hf
        rcases List.mem_cons.1 hf with rfl | hf
        · decide
        · rw [(List.mem_replicate.1 hf).2]
          exact List.not_mem_nil _)
      (by
        intro f hf
        simp only [List.head?_cons, Option.some.injEq] at hf
        subst hf
        decide)
    refine ⟨b, ?_⟩
    rw [List.map_cons, List.map_replicate, hflat, hB] at hb
    exact hb
  refine ⟨?_, key 1, ?_⟩
  · refine ⟨0 :: (List.replicate MAXBUFSIZE 0).drop 1, ?_⟩
    have hs := recv_store_spec [] (List.replicate MAXBUFSIZE 0) [] ((MAXBUFSIZE : Int) - 1)
      (by rw [List.length_replicate]; decide)
    have hs1 : recv_store
        { len := 0, remaining := (MAXBUFSIZE : Int) - 1, buf := List.replicate MAXBUFSIZE 0 } [] =
        some { len := 0, remaining := (MAXBUFSIZE : Int) - 1 - 0,
               buf := 0 :: (List.replicate MAXBUFSIZE 0).drop 1 } := hs
    simp only [recv_all, recv_all_from, recv_iter, hs1, recv_check, if_true]
  · rintro ⟨k, b, hb⟩
    obtain ⟨b1, h1⟩ := key k
    rw [h1] at hb
    cases hb

/-- C4. Request-target extraction: for every request (a C string: no NUL
before its first `/`) in which the first `/` is followed later by a space with
fewer than `MAXFILENAME` bytes between them, `get_requested_filename` stores
in the `MAXFILENAME`-byte array `filename` exactly the bytes strictly between
that `/` and the next space, followed by the end-of-string sentinel, and
leaves the rest of `filename` untouched. -/
theorem target_extraction (pre name rest filename : List Nat)
    (hslash : 47 ∉ pre) (hstr : 0 ∉ pre) (hspace : 32 ∉ name)
    (hlen : name.length < MAXFILENAME) (hcap : filename.length = MAXFILENAME) :
    get_requested_filename (pre ++ 47 :: (name ++ 32 :: rest)) filename =
      .stored (name ++ 0 :: filename.drop (name.length + 1)) := by
  have h1 := copy_target_spec name rest [] filename hspace (by omega)
  simp only [List.nil_append, List.length_nil, Nat.zero_add] at h1
  have h2 : writeAt (name ++ filename.drop name.length) name.length [0] =
      some (name ++ 0 :: filename.drop (name.length + 1)) := by
    rw [writeAt_append name _ [0] (by simp; omega)]
    simp [List.drop_drop, Nat.add_comm]
  simp [get_requested_filename, strchr_found pre _ 47 hslash hstr, h1, h2]

theorem target_extraction_witness :
    get_requested_filename (bytes "GET /index.html HTTP/1.1\r\n\r\n" ++ [0])
        (List.replicate MAXFILENAME 255) =
      .stored (bytes "index.html" ++ 0 :: List.replicate 53 255) :=
  (target_extraction (bytes "GET ") (bytes "index.html") (bytes "HTTP/1.1\r\n\r\n" ++ [0])
    (List.replicate MAXFILENAME 255) (by decide) (by decide) (by decide) (by decide)
    (List.length_replicate _ _)).trans (by decide)

/-- C5, amended. Successful response framing: for every existing regular file
of fewer than `MAX_CONTENT_LENGTH` bytes that contains no NUL byte, read into
a `body` whose byte just after the file's bytes is NUL (`read_file` stores
none), the message composed in the 200 branch and handed to `send_all` has
status line `HTTP/1.1 200 Ok`, `Content-Length` equal to the file's size plus
2 and, after the blank line, the file's bytes followed by CR LF. -/
theorem ok_response_framing (fs : FileSystem) (filepath body msg content : List Nat)
    (hfile : fs filepath = some content)
    (hnul : 0 ∉ content)
    (hsize : content.length < MAX_CONTENT_LENGTH)
    (hbody : body.length = MAX_CONTENT_LENGTH)
    (hterm : body[content.length]? = some 0)
    (hmsg : msg.length = MAXBUFSIZE) :
    response fs filepath body msg = some (framed_200 content) := by
  have htake : content.take body.length = content :=
    List.take_of_length_le (by omega)
  have hdrop : body.drop content.length = 0 :: body.drop (content.length + 1) := by
    have hlt : content.length < body.length := by omega
    rw [List.getElem?_eq_getElem hlt] at hterm
    have := List.drop_eq_getElem_cons hlt
    rw [this]
    simp only [Option.some.injEq] at hterm
    rw [hterm]
  have hw : writeAt body 0 content = some (content ++ 0 :: body.drop (content.length + 1)) := by
    rw [writeAt_zero _ _ (by omega), hdrop]
  have hne : ¬ ((content.length : Int) = -1) := by omega
  have := wire_message_sprintf msg (framed_200 content) (framed_200_no_nul _ hnul)
    (by rw [hmsg]; exact framed_200_length _ hsize)
  simpa [response, respond, read_file, hfile, htake, hw, hne, text_200_eq _ _ hnul] using this

theorem ok_response_framing_witness :
    0 ∉ bytes "<h1>hi</h1>" ∧ (bytes "<h1>hi</h1>").length = 11 ∧
    response (fs_of [(bytes "static/index.html", bytes "<h1>hi</h1>")]) (bytes "static/index.html")
        (List.replicate MAX_CONTENT_LENGTH 0) (List.replicate MAXBUFSIZE 0) =
      some (bytes "HTTP/1.1 200 Ok\r\nConnection: Keep-Alive\r\nContent-Length: 13\r\nContent-Type: text/html; charset=utf-8\r\nKeep-Alive: timeout=5, max=1000\r\n\r\n<h1>hi</h1>\r\n") :=
  ⟨by decide, by decide,
   (ok_response_framing (fs_of [(bytes "static/index.html", bytes "<h1>hi</h1>")])
      (bytes "static/index.html") (List.replicate MAX_CONTENT_LENGTH 0)
      (List.replicate MAXBUFSIZE 0) (bytes "<h1>hi</h1>")
      (by decide) (by decide) (by decide) (List.length_replicate _ _)
      (by decide!) (List.length_replicate _ _)).trans (by decide)⟩

/-- C5, as the claim states it, fails. For the existing 3-byte file `a NUL b`
the message has `Content-Length: 3` and body `a CRLF`, not size + 2 = 5 and the
file's bytes; for an existing file of 8192 bytes `a` the array `body` holds no
NUL and `strlen(body)` runs past it; and for the 11-byte file `<h1>hi</h1>`
read into a `body` that still holds the 20 bytes `<h1>hello world</h1>`, the
message has `Content-Length: 22` and body `<h1>hi</h1>orld</h1> CRLF`. -/
theorem ok_response_counterexample :
    response (fs_of [(bytes "static/a.bin", [97, 0, 98])]) (bytes "static/a.bin")
        (List.replicate MAX_CONTENT_LENGTH 0) (List.replicate MAXBUFSIZE 0) ≠
      some (framed_200 [97, 0, 98]) ∧
    response (fs_of [(bytes "static/a.bin", [97, 0, 98])]) (bytes "static/a.bin")
        (List.replicate MAX_CONTENT_LENGTH 0) (List.replicate MAXBUFSIZE 0) =
      some (bytes "HTTP/1.1 200 Ok\r\nConnection: Keep-Alive\r\nContent-Length: 3\r\nContent-Type: text/html; charset=utf-8\r\nKeep-Alive: timeout=5, max=1000\r\n\r\na\r\n") ∧
    response (fs_of [(bytes "static/big.html", List.replicate MAX_CONTENT_LENGTH 97)])
        (bytes "static/big.html")
        (List.replicate MAX_CONTENT_LENGTH 0) (List.replicate MAXBUFSIZE 0) = none ∧
    response (fs_of [(bytes "static/index.html", bytes "<h1>hi</h1>")]) (bytes "static/index.html")
        (bytes "<h1>hello world</h1>" ++ List.replicate 8172 0) (List.replicate MAXBUFSIZE 0) =
      some (bytes "HTTP/1.1 200 Ok\r\nConnection: Keep-Alive\r\nContent-Length: 22\r\nContent-Type: text/html; charset=utf-8\r\nKeep-Alive: timeout=5, max=1000\r\n\r\n<h1>hi</h1>orld</h1>\r\n") := by
  refine ⟨by decide!, by decide!, ?_, by decide!⟩
  exact response_unterminated _ _ _ _ (List.replicate MAX_CONTENT_LENGTH 97) rfl
    (by simp only [List.mem_replicate]; omega) (by simp only [List.length_replicate])

/-- C6. The not-found response is a fixed literal: whenever `read_file`
reports failure (-1), the message composed in the 404 branch and handed to
`send_all` is exactly the literal 404 message with `Content-Length: 11`, for
every file path and whatever `body` and `msg` held before. -/
theorem not_found_response_is_literal (fs : FileSystem) (filepath body msg : List Nat)
    (hmsg : msg.length = MAXBUFSIZE)
    (hfail : (read_file fs filepath body body.length).map Prod.fst = some (-1)) :
    response fs filepath body msg =
      some (bytes "HTTP/1.1 404 Not Found\r\nContent-Length: 11\r\nContent-Type: text/plain; charset=utf-8\r\n\r\nNot Found\r\n") := by
  obtain ⟨⟨rc, b⟩, hrf, hrc⟩ := Option.map_eq_some'.1 hfail
  simp only at hrc
  subst hrc
  have h0 : 0 ∉ literal_404 := by decide
  have hl : literal_404.length + 1 ≤ msg.length := by
    rw [hmsg]; decide
  have := wire_message_sprintf msg literal_404 h0 hl
  simpa [response, respond, hrf, text_404_eq] using this

theorem not_found_response_is_literal_witness :
    (List.replicate MAXBUFSIZE 65).length = MAXBUFSIZE ∧
    response (fun _ => none) (bytes "static/missing.html") (List.replicate MAX_CONTENT_LENGTH 66)
        (List.replicate MAXBUFSIZE 65) =
      some (bytes "HTTP/1.1 404 Not Found\r\nContent-Length: 11\r\nContent-Type: text/plain; charset=utf-8\r\n\r\nNot Found\r\n") :=
  ⟨List.length_replicate _ _,
   not_found_response_is_literal (fun _ => none) _ _ _ (List.length_replicate _ _) rfl⟩

/-- C7, amended. For every request (a C string) that contains no `/`,
`get_requested_filename` takes its "invalid request" return without storing
anything into `filename`, which keeps whatever it held before, and the result
does not depend on the bytes after the request's terminating NUL (nothing
beyond the request is scanned). -/
theorem no_slash_leaves_filename (req rest filename : List Nat)
    (hslash : 47 ∉ req) (hstr : 0 ∉ req) :
    get_requested_filename (req ++ 0 :: rest) filename = .invalid filename := by
  simp [get_requested_filename, strchr_null req rest 47 (by decide) hslash hstr]

theorem no_slash_leaves_filename_witness :
    47 ∉ bytes "GET\r\n\r\n" ∧
    get_requested_filename (bytes "GET\r\n\r\n" ++ 0 :: bytes "html HTTP/1.1\r\n\r\n")
        (bytes "index.html" ++ List.replicate 54 0) =
      .invalid (bytes "index.html" ++ List.replicate 54 0) :=
  ⟨by decide, no_slash_leaves_filename _ _ _ (by decide) (by decide)⟩

/-- C7, as the claim states it, fails. After the request `GET /index.html
HTTP/1.1` left `index.html` in `filename`, the request `GET CRLF CRLF` (no
`/`) leaves `filename` holding `index.html`, not an empty name. And for
`GET /b CRLF CRLF` (no space after the `/`) received into the buffer that
still holds the tail `html HTTP/1.1 CRLF CRLF` of the earlier request, the
scan runs past the request's terminating NUL up to the space of the earlier
request, storing `b CRLF CRLF NUL html`. -/
theorem malformed_request_counterexample :
    get_requested_filename (bytes "GET\r\n\r\n" ++ [0]) (bytes "index.html" ++ List.replicate 54 0) =
      .invalid (bytes "index.html" ++ List.replicate 54 0) ∧
    c_str (bytes "index.html" ++ List.replicate 54 0) = some (bytes "index.html") ∧
    get_requested_filename
        (bytes "GET /b\r\n\r\n" ++ [0] ++ bytes "html HTTP/1.1\r\n\r\n" ++ [0])
        (bytes "index.html" ++ List.replicate 54 0) =
      .stored (bytes "b\r\n\r\n" ++ [0] ++ bytes "html" ++ [0] ++ List.replicate 53 0) := by
  refine ⟨?_, ?_, ?_⟩ <;> decide

/-- C8, amended. Reliable write: for every message length `len` of at most
`INT_MAX` (the range of the `int` in which `send_all` counts and returns), and
every behaviour of `send` in which a call either fails with -1 or accepts
between 1 and the number of bytes offered, `send_all` returns once it has `len`
units of fuel (it terminates, after at most `len` calls). Its run is a reliable
write: as long as bytes are unsent a `send` is issued, each call is offered
exactly the unsent suffix (offset = total so far, count = what is left), the
loop ends without a failure only when the accepted bytes add up to `len`, and
the result is then `len`; and when a call returns -1 the result is -1 and that
call is the last one issued (never a partial count). -/
theorem send_all_reliable (send : SendOracle) (len fuel : Nat) (hlen : len ≤ INT_MAX)
    (hfuel : len ≤ fuel)
    (hc : ∀ i off cnt, 0 < cnt →
      send i off cnt = -1 ∨ (1 ≤ send i off cnt ∧ send i off cnt ≤ cnt)) :
    ReliableWrite send len 0 0 (send_all fuel send len).calls (send_all fuel send len).ret ∧
    ((send_all fuel send len).ret = some (len : Int) →
      ((send_all fuel send len).calls.map SendCall.result).sum = (len : Int)) ∧
    (send_all fuel send len).calls.length ≤ len ∧
    OffersUnsentSuffix len 0 (send_all fuel send len).calls ∧
    ((send_all fuel send len).ret = some (len : Int) ∨ (send_all fuel send len).ret = some (-1)) ∧
    ((∀ c ∈ (send_all fuel send len).calls, c.result ≠ -1) →
      (send_all fuel send len).ret = some (len : Int)) ∧
    (∀ c ∈ (send_all fuel send len).calls, c.result = -1 →
      (send_all fuel send len).ret = some (-1) ∧
      (send_all fuel send len).calls.getLast? = some c ∧
      ∀ c1 ∈ (send_all fuel send len).calls.dropLast, c1.result ≠ -1) ∧
    (∀ c ∈ (send_all fuel send len).calls, ∃ j, c.result = send j c.offset c.count) := by
  obtain ⟨h1, h2, h3⟩ :=
    send_all_loop_complete send len hlen hc fuel 0 0 (le_refl _) (by omega) (by omega)
  unfold send_all
  refine ⟨h1, ?_, ?_,
    send_all_loop_spec send len hlen hc fuel 0 0 (le_refl _) (by omega) (by omega)⟩
  · intro h
    have := h2 h
    omega
  · omega

theorem send_all_reliable_witness :
    (10 : Nat) ≤ INT_MAX ∧
    (send_all 10 (fun _ _ cnt => ((min cnt 3 : Nat) : Int)) 10).calls =
      [{ offset := 0, count := 10, result := 3 }, { offset := 3, count := 7, result := 3 },
       { offset := 6, count := 4, result := 3 }, { offset := 9, count := 1, result := 1 }] ∧
    ReliableWrite (fun _ _ cnt => ((min cnt 3 : Nat) : Int)) 10 0 0
      (send_all 10 (fun _ _ cnt => ((min cnt 3 : Nat) : Int)) 10).calls
      (send_all 10 (fun _ _ cnt => ((min cnt 3 : Nat) : Int)) 10).ret ∧
    (send_all 10 (fun _ _ cnt => ((min cnt 3 : Nat) : Int)) 10).ret = some 10 :=
  have h := send_all_reliable (fun _ _ cnt => ((min cnt 3 : Nat) : Int)) 10 10 (by decide)
    (le_refl _)
    (by
      intro i off cnt h
      right
      show (1 : Int) ≤ ((min cnt 3 : Nat) : Int) ∧ ((min cnt 3 : Nat) : Int) ≤ (cnt : Int)
      constructor <;> omega)
  ⟨by decide, by decide, h.1, h.2.2.2.2.2.1 (by decide)⟩

/-- C8, as the claim states it, fails. For a message of 2147483648 bytes and a
`send` that accepts every byte offered up to 2147479552 per call (so each call
accepts between 1 and the number of unsent bytes), `send_all` issues two calls
that accept 2147479552 and 4096 bytes, the `int total` cannot hold their sum
2147483648, and the value returned is -2147483648, not `len`. -/
theorem send_all_int_range_counterexample :
    (∀ (cnt : Nat), 0 < cnt →
      (1 : Int) ≤ ((min cnt 2147479552 : Nat) : Int) ∧
        ((min cnt 2147479552 : Nat) : Int) ≤ (cnt : Int)) ∧
    (send_all 2147483648 (fun _ _ cnt => ((min cnt 2147479552 : Nat) : Int)) 2147483648).calls =
      [{ offset := 0, count := 2147483648, result := 2147479552 },
       { offset := 2147479552, count := 4096, result := 4096 }] ∧
    (send_all 2147483648 (fun _ _ cnt => ((min cnt 2147479552 : Nat) : Int)) 2147483648).ret =
      some (-2147483648) ∧
    (send_all 2147483648 (fun _ _ cnt => ((min cnt 2147479552 : Nat) : Int)) 2147483648).ret ≠
      some ((2147483648 : Nat) : Int) := by
  refine ⟨?_, ?_, ?_, ?_⟩
  · intro cnt h
    constructor <;> omega
  · decide
  · decide
  · decide

/-- C9. Request Buffer length invariant: in every state the loop of `recv_all`
can be in, when each `recv` returns between 0 and the count requested (which
is the minimum of `remaining` and `MAXDATASIZE - 1`), `len + remaining =
MAXBUFSIZE - 1` and `remaining >= 0`, so `len` never exceeds `MAXBUFSIZE - 1`;
and the next iteration stores the received bytes and the sentinel `buf[len]`
inside the buffer and re-establishes the same relations. -/
theorem recv_all_length_invariant (buf0 : List Nat) (st : RecvState)
    (hcap : buf0.length = MAXBUFSIZE) (hreach : Reach buf0 st) :
    (st.len + st.remaining = (MAXBUFSIZE : Int) - 1 ∧ 0 ≤ st.remaining ∧
      st.len ≤ (MAXBUFSIZE : Int) - 1) ∧
    recv_count st.remaining = min st.remaining ((MAXDATASIZE : Int) - 1) ∧
    ∀ d : List Nat, (d.length : Int) ≤ recv_count st.remaining →
      ∃ st1, recv_store st d = some st1 ∧
        st1.len + st1.remaining = (MAXBUFSIZE : Int) - 1 ∧ 0 ≤ st1.remaining ∧
        st1.len ≤ (MAXBUFSIZE : Int) - 1 ∧ st1.buf.length = MAXBUFSIZE ∧
        st1.len.toNat < st1.buf.length ∧ st1.buf[st1.len.toNat]? = some 0 := by
  have hB := MAXBUFSIZE_eq
  obtain ⟨hsum, hrem, hlen, hbuf⟩ := reach_invariant buf0 st hcap hreach
  have hcount : recv_count st.remaining = min st.remaining ((MAXDATASIZE : Int) - 1) := by
    unfold recv_count MAXDATASIZE
    split_ifs <;> omega
  refine ⟨⟨hsum, hrem, by omega⟩, hcount, ?_⟩
  intro d hd
  have hle : (d.length : Int) ≤ st.remaining := by
    rw [hcount] at hd; omega
  obtain ⟨b, hst, hb, hz⟩ := recv_store_general st d hlen (by rw [hbuf, hB]; omega)
  refine ⟨_, hst, ?_, ?_, ?_, ?_, ?_, hz⟩
  · simp only; omega
  · simp only; omega
  · simp only; omega
  · simp only; rw [hb, hbuf]
  · simp only; rw [hb, hbuf, hB]; omega

theorem recv_all_length_invariant_witness :
    Reach (List.replicate MAXBUFSIZE 0)
      { len := 4, remaining := (MAXBUFSIZE : Int) - 1 - 4,
        buf := bytes "GET " ++ 0 :: (List.replicate MAXBUFSIZE 0).drop 5 } ∧
    ((4 : Int) + ((MAXBUFSIZE : Int) - 1 - 4) = (MAXBUFSIZE : Int) - 1 ∧
      (0 : Int) ≤ (MAXBUFSIZE : Int) - 1 - 4 ∧ (4 : Int) ≤ (MAXBUFSIZE : Int) - 1) :=
  have hreach : Reach (List.replicate MAXBUFSIZE 0)
      { len := 4, remaining := (MAXBUFSIZE : Int) - 1 - 4,
        buf := bytes "GET " ++ 0 :: (List.replicate MAXBUFSIZE 0).drop 5 } :=
    Reach.step _ _ (bytes "GET ") Reach.init (by decide)
      (recv_store_spec [] (List.replicate MAXBUFSIZE 0) (bytes "GET ") ((MAXBUFSIZE : Int) - 1)
        (by rw [List.length_replicate]; decide))
  ⟨hreach, (recv_all_length_invariant (List.replicate MAXBUFSIZE 0) _
    (List.length_replicate _ _) hreach).1⟩

/-- C10, the defect. For the 82-byte request `GET /` + 64 bytes `a` +
` HTTP/1.1 CRLF CRLF`, the copy loop stores 64 bytes into the 64-byte array
`filename` and leaves `len = 64`, so the sentinel store `filename[64]` falls
outside the array: 65 bytes are written, and the call faults. -/
theorem filename_overflow :
    copy_target (List.replicate 64 97 ++ bytes " HTTP/1.1\r\n\r\n" ++ [0])
        (List.replicate MAXFILENAME 0) 0 = some (List.replicate 64 97, 64) ∧
    writeAt (List.replicate 64 97) 64 [0] = none ∧
    get_requested_filename (bytes "GET /" ++ List.replicate 64 97 ++ bytes " HTTP/1.1\r\n\r\n" ++ [0])
        (List.replicate MAXFILENAME 0) = .fault := by
  refine ⟨?_, ?_, ?_⟩ <;> decide

end Webserver
